import Mathlib

/-!
Shallow embedding of the `xtea-cipher` repository (src/lib.rs and
src/bytes.rs) and verification of its specification.

Machine integers are modelled as `Nat` with explicit reduction modulo
`2 ^ 32`; Rust's `wrapping_add` / `wrapping_sub` / `wrapping_mul` and the
truncating shift `<<` become the helpers `wadd` / `wsub` / `wmul` / `wshl`.
Fallible operations (cursor reads that can underrun, buffer writes whose
slice copy can panic) return `Option`.
-/

namespace XteaSpec

/-- The modulus of 32-bit machine arithmetic. -/
def M : Nat := 2 ^ 32

/-- Rust `u32::wrapping_add`. -/
def wadd (a b : Nat) : Nat := (a + b) % M

/-- Rust `u32::wrapping_sub` (on values already reduced modulo `M`). -/
def wsub (a b : Nat) : Nat := (a + (M - b % M)) % M

/-- Rust `u32::wrapping_mul`. -/
def wmul (a b : Nat) : Nat := (a * b) % M

/-- Rust `<<` on `u32`: shift left, truncated to 32 bits. -/
def wshl (a n : Nat) : Nat := (a <<< n) % M

/-- The 128-bit key `XteaKey` of src/lib.rs: four 32-bit words. -/
structure XteaKey where
  k0 : Nat
  k1 : Nat
  k2 : Nat
  k3 : Nat
deriving DecidableEq

/-- Indexing into the key vector, as `key[i]` in src/lib.rs.  The cipher
only ever indexes with `sum & 3` or `(sum >> 11) & 3`, both below 4. -/
def XteaKey.index (k : XteaKey) : Nat → Nat
  | 0 => k.k0
  | 1 => k.k1
  | 2 => k.k2
  | _ => k.k3

/-- `Xtea::DELTA` from src/lib.rs. -/
def DELTA : Nat := 0x9E3779B9

/-- `Xtea::DEFAULT_ROUNDS` from src/lib.rs. -/
def DEFAULT_ROUNDS : Nat := 32

/-- One iteration of the loop body of `Xtea::encipher_block`
(src/lib.rs lines 65-73), translated with Rust's operator precedence:
the first statement parses as `v0 = (v0.wrapping_add(..)) ^ (..)`. -/
def enc_round (key : XteaKey) : Nat × Nat × Nat → Nat × Nat × Nat
  | (v0, v1, sum) =>
    let v0 := (wadd v0 (wadd ((wshl v1 4) ^^^ (v1 >>> 5)) v1)) ^^^
      (wadd sum (key.index (sum &&& 3)))
    let sum := wadd sum DELTA
    let v1 := wadd v1 ((wadd ((wshl v0 4) ^^^ (v0 >>> 5)) v0) ^^^
      (wadd sum (key.index ((sum >>> 11) &&& 3))))
    (v0, v1, sum)

/-- One iteration of the loop body of `Xtea::decipher_block`
(src/lib.rs lines 84-94). -/
def dec_round (key : XteaKey) : Nat × Nat × Nat → Nat × Nat × Nat
  | (v0, v1, sum) =>
    let v1 := wsub v1 ((wadd ((wshl v0 4) ^^^ (v0 >>> 5)) v0) ^^^
      (wadd sum (key.index ((sum >>> 11) &&& 3))))
    let sum := wsub sum DELTA
    let v0 := wsub v0 ((wadd ((wshl v1 4) ^^^ (v1 >>> 5)) v1) ^^^
      (wadd sum (key.index (sum &&& 3))))
    (v0, v1, sum)

/-- Iterating a round function, as `for _ in 0..self.rounds`. -/
def iterRounds (f : Nat × Nat × Nat → Nat × Nat × Nat) :
    Nat → Nat × Nat × Nat → Nat × Nat × Nat
  | 0, st => st
  | n + 1, st => iterRounds f n (f st)

/-- `Xtea::encipher_block` (src/lib.rs lines 59-77): `rounds` iterations of
`enc_round` starting from `sum = 0`. -/
def encipher_block (key : XteaKey) (rounds : Nat) (input : Nat × Nat) :
    Nat × Nat :=
  let st := iterRounds (enc_round key) rounds (input.1, input.2, 0)
  (st.1, st.2.1)

/-- `Xtea::decipher_block` (src/lib.rs lines 79-98): `rounds` iterations of
`dec_round` starting from `sum = DELTA.wrapping_mul(rounds)`. -/
def decipher_block (key : XteaKey) (rounds : Nat) (input : Nat × Nat) :
    Nat × Nat :=
  let st := iterRounds (dec_round key) rounds (input.1, input.2, wmul DELTA rounds)
  (st.1, st.2.1)

/-- Modelled from the spec: the encipher round exactly as section 4.2 of the
spec writes it, `v0 += (((v1 << 4) ^ (v1 >> 5)) + v1) ^ (sum + k[sum & 3])`,
i.e. the XOR of the whole right-hand side is added to `v0`.  Kept separate
from `enc_round` (the code's round) so the two can be compared. -/
def spec_enc_round (key : XteaKey) : Nat × Nat × Nat → Nat × Nat × Nat
  | (v0, v1, sum) =>
    let v0 := wadd v0 ((wadd ((wshl v1 4) ^^^ (v1 >>> 5)) v1) ^^^
      (wadd sum (key.index (sum &&& 3))))
    let sum := wadd sum DELTA
    let v1 := wadd v1 ((wadd ((wshl v0 4) ^^^ (v0 >>> 5)) v0) ^^^
      (wadd sum (key.index ((sum >>> 11) &&& 3))))
    (v0, v1, sum)

/-- Modelled from the spec: the full encipher block transform built from the
spec's round, for comparison with the code's `encipher_block`. -/
def spec_encipher_block (key : XteaKey) (rounds : Nat) (input : Nat × Nat) :
    Nat × Nat :=
  let st := iterRounds (spec_enc_round key) rounds (input.1, input.2, 0)
  (st.1, st.2.1)

/-- The `Bytes` cursor of src/bytes.rs: an owned byte buffer with
independent read and write positions.  Bytes are `Nat`s below 256. -/
structure Bytes where
  buffer : List Nat
  read_pos : Nat
  write_pos : Nat
deriving DecidableEq

/-- `Bytes::new` (src/bytes.rs lines 41-47). -/
def Bytes.new (contents : List Nat) : Bytes :=
  { buffer := contents, read_pos := 0, write_pos := 0 }

/-- `Bytes::with_capacity` (src/bytes.rs lines 50-56).  Rust's
`Vec::with_capacity` produces a vector of length 0; the reserved capacity
is not observable in the semantics, so the buffer is the empty list. -/
def Bytes.with_capacity (_capacity : Nat) : Bytes :=
  { buffer := [], read_pos := 0, write_pos := 0 }

/-- `Bytes::sized::<SIZE>` (src/bytes.rs lines 60-66): a zero-filled
buffer of the given length. -/
def Bytes.sized (size : Nat) : Bytes :=
  { buffer := List.replicate size 0, read_pos := 0, write_pos := 0 }

/-- `Bytes::len` (src/bytes.rs lines 158-160). -/
def Bytes.len (b : Bytes) : Nat := b.buffer.length

/-- `Bytes::readable` (src/bytes.rs lines 162-164). -/
def Bytes.readable (b : Bytes) : Nat := b.buffer.length - b.read_pos

/-- `Bytes::writable` (src/bytes.rs lines 166-168). -/
def Bytes.writable (b : Bytes) : Nat := b.buffer.length - b.write_pos

/-- `Bytes::advance_read_pos` (src/bytes.rs lines 170-172):
`read_pos += min(amount, readable())`. -/
def Bytes.advance_read_pos (b : Bytes) (amount : Nat) : Bytes :=
  { b with read_pos := b.read_pos + min amount b.readable }

/-- `Bytes::advance_write_pos` (src/bytes.rs lines 174-176):
`write_pos += min(amount, writable())`. -/
def Bytes.advance_write_pos (b : Bytes) (amount : Nat) : Bytes :=
  { b with write_pos := b.write_pos + min amount b.writable }

/-- The `impl_get_bytes!` macro of src/bytes.rs (lines 3-16), generic over
the byte width `size`: on underrun (`pos + SIZE > limit`) it returns the
error and the untouched cursor; otherwise the `size` bytes at `read_pos`
together with the advanced cursor. -/
def impl_get_bytes (b : Bytes) (size : Nat) : Option (List Nat) × Bytes :=
  if b.read_pos + size > b.buffer.length then (none, b)
  else (some ((b.buffer.drop b.read_pos).take size), b.advance_read_pos size)

/-- Big-endian interpretation of a byte list, as Rust's
`uN::from_be_bytes`. -/
def fromBeBytes (bytes : List Nat) : Nat :=
  bytes.foldl (fun acc x => acc * 256 + x) 0

/-- Two's-complement reading of a `w`-bit unsigned value, as Rust's
`iN::from_be_bytes` composed with the unsigned interpretation. -/
def toSigned (w : Nat) (n : Nat) : Int :=
  if n < 2 ^ (w - 1) then (n : Int) else (n : Int) - 2 ^ w

/-- `Bytes::get_u8` (src/bytes.rs lines 70-72). -/
def Bytes.get_u8 (b : Bytes) : Option Nat × Bytes :=
  match impl_get_bytes b 1 with
  | (o, b) => (o.map fromBeBytes, b)

/-- `Bytes::get_i8` (src/bytes.rs lines 76-78). -/
def Bytes.get_i8 (b : Bytes) : Option Int × Bytes :=
  match impl_get_bytes b 1 with
  | (o, b) => (o.map (fun s => toSigned 8 (fromBeBytes s)), b)

/-- `Bytes::get_i16` (src/bytes.rs lines 82-84). -/
def Bytes.get_i16 (b : Bytes) : Option Int × Bytes :=
  match impl_get_bytes b 2 with
  | (o, b) => (o.map (fun s => toSigned 16 (fromBeBytes s)), b)

/-- `Bytes::get_u16` (src/bytes.rs lines 88-90). -/
def Bytes.get_u16 (b : Bytes) : Option Nat × Bytes :=
  match impl_get_bytes b 2 with
  | (o, b) => (o.map fromBeBytes, b)

/-- `Bytes::get_i32` (src/bytes.rs lines 94-96). -/
def Bytes.get_i32 (b : Bytes) : Option Int × Bytes :=
  match impl_get_bytes b 4 with
  | (o, b) => (o.map (fun s => toSigned 32 (fromBeBytes s)), b)

/-- `Bytes::get_u32` (src/bytes.rs lines 100-102). -/
def Bytes.get_u32 (b : Bytes) : Option Nat × Bytes :=
  match impl_get_bytes b 4 with
  | (o, b) => (o.map fromBeBytes, b)

/-- `Bytes::get_i64` (src/bytes.rs lines 106-108). -/
def Bytes.get_i64 (b : Bytes) : Option Int × Bytes :=
  match impl_get_bytes b 8 with
  | (o, b) => (o.map (fun s => toSigned 64 (fromBeBytes s)), b)

/-- `Bytes::get_u64` (src/bytes.rs lines 112-114). -/
def Bytes.get_u64 (b : Bytes) : Option Nat × Bytes :=
  match impl_get_bytes b 8 with
  | (o, b) => (o.map fromBeBytes, b)

/-- Big-endian serialization of a value into `size` bytes, as Rust's
`uN::to_be_bytes`. -/
def toBeBytes (size value : Nat) : List Nat :=
  (List.range size).map (fun i => (value >>> (8 * (size - 1 - i))) % 256)

/-- Big-endian two's-complement serialization of a signed value, as Rust's
`iN::to_be_bytes`. -/
def iToBeBytes (size : Nat) (value : Int) : List Nat :=
  toBeBytes size (value % (2 ^ (8 * size))).toNat

/-- The slice assignment `buffer[pos..pos + slice_len].copy_from_slice(value)`
of src/bytes.rs line 27 (in-bounds case). -/
def copy_from_slice (l : List Nat) (pos : Nat) (v : List Nat) : List Nat :=
  l.take pos ++ v ++ l.drop (pos + v.length)

/-- The resize step of the `impl_put_bytes!` macro (src/bytes.rs lines
23-25): when `pos + slice_len >= buffer.len()` the buffer is resized to
`buf_len * 2`, filling with zeros. -/
def grow_for_write (b : Bytes) (slice_len : Nat) : Bytes :=
  if b.write_pos + slice_len ≥ b.buffer.length then
    { b with buffer :=
        b.buffer ++ List.replicate (b.buffer.length * 2 - b.buffer.length) 0 }
  else b

/-- The `impl_put_bytes!` macro of src/bytes.rs (lines 18-30): after the
conditional resize, the value is copied at `write_pos` and the write
position advanced.  `none` models the panic of the slice copy when the
(possibly resized) buffer is still too short for the range
`pos..pos + slice_len`. -/
def impl_put_bytes (b : Bytes) (value : List Nat) : Option Bytes :=
  if b.write_pos + value.length ≤ (grow_for_write b value.length).buffer.length then
    some ((Bytes.mk
      (copy_from_slice (grow_for_write b value.length).buffer b.write_pos value)
      b.read_pos b.write_pos).advance_write_pos value.length)
  else none

/-- `Bytes::put_u8` (src/bytes.rs lines 117-120). -/
def Bytes.put_u8 (b : Bytes) (value : Nat) : Option Bytes :=
  impl_put_bytes b (toBeBytes 1 value)

/-- `Bytes::put_i8` (src/bytes.rs lines 123-126). -/
def Bytes.put_i8 (b : Bytes) (value : Int) : Option Bytes :=
  impl_put_bytes b (iToBeBytes 1 value)

/-- `Bytes::put_i16` (src/bytes.rs lines 129-132). -/
def Bytes.put_i16 (b : Bytes) (value : Int) : Option Bytes :=
  impl_put_bytes b (iToBeBytes 2 value)

/-- `Bytes::put_u16` (src/bytes.rs lines 135-138). -/
def Bytes.put_u16 (b : Bytes) (value : Nat) : Option Bytes :=
  impl_put_bytes b (toBeBytes 2 value)

/-- `Bytes::put_i32` (src/bytes.rs lines 141-144). -/
def Bytes.put_i32 (b : Bytes) (value : Int) : Option Bytes :=
  impl_put_bytes b (iToBeBytes 4 value)

/-- `Bytes::put_u32` (src/bytes.rs lines 147-150). -/
def Bytes.put_u32 (b : Bytes) (value : Nat) : Option Bytes :=
  impl_put_bytes b (toBeBytes 4 value)

/-- `Bytes::put_u64` (src/bytes.rs lines 153-156). -/
def Bytes.put_u64 (b : Bytes) (value : Nat) : Option Bytes :=
  impl_put_bytes b (toBeBytes 8 value)

/-- The cursor-bounds invariant of spec section 3:
`read_pos <= buffer.len()` and `write_pos <= buffer.len()`. -/
def Bytes.inv (b : Bytes) : Prop :=
  b.read_pos ≤ b.buffer.length ∧ b.write_pos ≤ b.buffer.length

/-- The loop of `Xtea::do_block_cipher` (src/lib.rs lines 107-119): per
iteration two big-endian words are read from the input cursor, the block
transform applied, and the two result words written to the output cursor.
`none` models a propagated read error or a put panic. -/
def cipher_loop (key : XteaKey) (rounds : Nat) (decrypt : Bool) :
    Nat → Bytes → Bytes → Option (List Nat)
  | 0, _, output_buffer => some output_buffer.buffer
  | n + 1, input_buffer, output_buffer =>
    match input_buffer.get_u32 with
    | (none, _) => none
    | (some w0, ib) =>
      match ib.get_u32 with
      | (none, _) => none
      | (some w1, ib) =>
        let out := if decrypt then decipher_block key rounds (w0, w1)
          else encipher_block key rounds (w0, w1)
        match output_buffer.put_u32 out.1 with
        | none => none
        | some ob =>
          match ob.put_u32 out.2 with
          | none => none
          | some ob => cipher_loop key rounds decrypt n ib ob

/-- `Xtea::do_block_cipher` (src/lib.rs lines 100-121): the input cursor
wraps the input, the output cursor wraps a zero vector of the same length,
`iterations = readable() / 8`, and the final output is the output cursor's
whole backing buffer. -/
def do_block_cipher (key : XteaKey) (rounds : Nat) (input : List Nat)
    (decrypt : Bool) : Option (List Nat) :=
  let input_buffer := Bytes.new input
  let output_buffer := Bytes.new (List.replicate input.length 0)
  let iterations := input_buffer.readable / 8
  cipher_loop key rounds decrypt iterations input_buffer output_buffer

/-- `Xtea::encipher` (src/lib.rs lines 50-52): `do_block_cipher` with
`decrypt = false`. -/
def encipher (key : XteaKey) (rounds : Nat) (input : List Nat) :
    Option (List Nat) :=
  do_block_cipher key rounds input false

/-- `Xtea::decipher` (src/lib.rs lines 55-57): `do_block_cipher` with
`decrypt = true`. -/
def decipher (key : XteaKey) (rounds : Nat) (input : List Nat) :
    Option (List Nat) :=
  do_block_cipher key rounds input true

/-- Key `[1, 0, 0, 0]`, used by the concrete counterexamples. -/
def K1 : XteaKey := ⟨1, 0, 0, 0⟩

/-- The spec's test-vector key `[0x00010203, 0x04050607, 0x08090A0B,
0x0C0D0E0F]` (spec section 8). -/
def Ktv : XteaKey := ⟨0x00010203, 0x04050607, 0x08090A0B, 0x0C0D0E0F⟩

/-- The 8-byte plaintext encoding the block `(1, 0)` big-endian. -/
def P8 : List Nat := [0, 0, 0, 1, 0, 0, 0, 0]

/-- The first 8-byte test block. -/
def A8 : List Nat := [0, 1, 2, 3, 4, 5, 6, 7]

/-- The second 8-byte test block. -/
def B8 : List Nat := [8, 9, 10, 11, 12, 13, 14, 15]

/-- C1.  The round-trip law fails on the code: for the 4-word key
`[1, 0, 0, 0]`, round count `1 >= 1`, and the 8-byte plaintext `P8`
(`length % 8 = 0`), deciphering the result of enciphering `P8` does not
yield `P8` (the code produces a 32-byte result that moreover starts with a
corrupted block). -/
theorem roundtrip_fails_concrete :
    P8.length % 8 = 0 ∧
      (encipher K1 1 P8).bind (fun c => decipher K1 1 c) ≠ some P8 := by
  constructor
  · decide
  · decide

/-- C2.  `encipher_block` does not perform the spec's round: its first
update parses as `(v0 + F) ^ G` instead of the spec's `v0 + (F ^ G)`, so
already one code round differs from one spec round, and the block
transforms differ, at key `[1, 0, 0, 0]`, state `(v0, v1, sum) = (1, 0, 0)`. -/
theorem enc_round_deviates_from_spec_round :
    enc_round K1 (1, 0, 0) ≠ spec_enc_round K1 (1, 0, 0) ∧
      encipher_block K1 1 (1, 0) ≠ spec_encipher_block K1 1 (1, 0) := by
  constructor
  · decide
  · decide

/-- C3.  The output length is not `8 * floor(n / 8)`: for the spec's
test-vector key and an 8-byte input the code returns 16 bytes, because the
final `put_u32` exactly fills the output buffer and the `>=` test of
`impl_put_bytes!` doubles it, and `do_block_cipher` returns the whole
backing buffer. -/
theorem output_length_not_block_aligned :
    (do_block_cipher Ktv 32 A8 false).map List.length = some 16 ∧
      8 * (A8.length / 8) = 8 := by
  constructor
  · decide
  · decide

/-- C4.  `decipher_block` is not the inverse of `encipher_block`: at key
`[1, 0, 0, 0]`, 1 round, block `(1, 0)`, composing them yields
`(2^32 - 1, 0)`, not `(1, 0)` (the encipher round's first update parses as
`(v0 + F) ^ G`, which `v0 - (F ^ G)` does not undo). -/
theorem decipher_block_not_inverse :
    decipher_block K1 1 (encipher_block K1 1 (1, 0)) ≠ (1, 0) ∧
      decipher_block K1 1 (encipher_block K1 1 (1, 0)) = (M - 1, 0) := by
  constructor
  · decide
  · decide

/-- C5.  A put can fail due to capacity: on a cursor built by
`with_capacity` the buffer has length 0, `impl_put_bytes!` resizes it to
`0 * 2 = 0`, and the slice copy panics (`none`); similarly one doubling of
a 2-byte buffer cannot accommodate an 8-byte write. -/
theorem put_fails_on_with_capacity_cursor :
    Bytes.put_u8 (Bytes.with_capacity 4) 0 = none ∧
      Bytes.put_u64 (Bytes.new [0, 0]) 5 = none := by
  constructor
  · decide
  · decide

/-- C7.  Block independence fails on the observable output: enciphering
`A8 ++ B8` gives `E(A8) ++ E(B8) ++ 16 zero bytes`, while concatenating
the two separate encipherments gives `E(A8) ++ 8 zeros ++ E(B8) ++ 8
zeros` — different byte sequences. -/
theorem block_concat_differs :
    do_block_cipher Ktv 32 (A8 ++ B8) false ≠
      (do_block_cipher Ktv 32 A8 false).bind (fun y =>
        (do_block_cipher Ktv 32 B8 false).map (fun z => y ++ z)) := by
  decide

theorem copy_from_slice_length (l v : List Nat) (pos : Nat)
    (h : pos + v.length ≤ l.length) :
    (copy_from_slice l pos v).length = l.length := by
  simp [copy_from_slice]
  omega

theorem grow_for_write_length (b : Bytes) (slice_len : Nat) :
    b.buffer.length ≤ (grow_for_write b slice_len).buffer.length := by
  unfold grow_for_write
  split
  · simp only [List.length_append, List.length_replicate]
    omega
  · exact le_refl _

theorem impl_put_bytes_some (b : Bytes) (value : List Nat)
    (h : b.write_pos + value.length ≤ b.buffer.length) :
    ∃ b2, impl_put_bytes b value = some b2 ∧
      b2.read_pos = b.read_pos ∧
      b2.write_pos = b.write_pos + value.length ∧
      b.buffer.length ≤ b2.buffer.length := by
  have hg := grow_for_write_length b value.length
  have hcond : b.write_pos + value.length ≤ (grow_for_write b value.length).buffer.length :=
    le_trans h hg
  have hcl := copy_from_slice_length (grow_for_write b value.length).buffer value b.write_pos hcond
  refine ⟨(Bytes.mk
      (copy_from_slice (grow_for_write b value.length).buffer b.write_pos value)
      b.read_pos b.write_pos).advance_write_pos value.length, ?_, rfl, ?_, ?_⟩
  · unfold impl_put_bytes
    rw [if_pos hcond]
  · show b.write_pos + min value.length
      ((copy_from_slice (grow_for_write b value.length).buffer b.write_pos value).length - b.write_pos)
        = b.write_pos + value.length
    rw [hcl]
    omega
  · show b.buffer.length ≤
      (copy_from_slice (grow_for_write b value.length).buffer b.write_pos value).length
    rw [hcl]
    exact hg

theorem impl_get_bytes_some (b : Bytes) (size : Nat)
    (h : b.read_pos + size ≤ b.buffer.length) :
    impl_get_bytes b size =
      (some ((b.buffer.drop b.read_pos).take size),
        { b with read_pos := b.read_pos + size }) := by
  unfold impl_get_bytes
  rw [if_neg (by omega)]
  unfold Bytes.advance_read_pos Bytes.readable
  rw [Nat.min_eq_left (by omega)]

theorem impl_get_bytes_none (b : Bytes) (size : Nat)
    (h : b.buffer.length < b.read_pos + size) :
    impl_get_bytes b size = (none, b) := by
  unfold impl_get_bytes
  rw [if_pos (by omega)]

theorem get_u32_some (b : Bytes) (h : b.read_pos + 4 ≤ b.buffer.length) :
    b.get_u32 = (some (fromBeBytes ((b.buffer.drop b.read_pos).take 4)),
      { b with read_pos := b.read_pos + 4 }) := by
  unfold Bytes.get_u32
  rw [impl_get_bytes_some b 4 h]
  rfl

theorem toBeBytes_length (size value : Nat) :
    (toBeBytes size value).length = size := by
  simp [toBeBytes]

theorem put_u32_some (b : Bytes) (v : Nat)
    (h : b.write_pos + 4 ≤ b.buffer.length) :
    ∃ b2, b.put_u32 v = some b2 ∧ b2.read_pos = b.read_pos ∧
      b2.write_pos = b.write_pos + 4 ∧ b.buffer.length ≤ b2.buffer.length := by
  have h4 : (toBeBytes 4 v).length = 4 := toBeBytes_length 4 v
  obtain ⟨b2, h1, h2, h3, h5⟩ := impl_put_bytes_some b (toBeBytes 4 v) (by rw [h4]; exact h)
  exact ⟨b2, h1, h2, by rw [h3, h4], h5⟩

theorem impl_put_bytes_inv (b : Bytes) (value : List Nat) (b2 : Bytes)
    (hb : b.inv) (hp : impl_put_bytes b value = some b2) : b2.inv := by
  unfold impl_put_bytes at hp
  by_cases hc : b.write_pos + value.length ≤ (grow_for_write b value.length).buffer.length
  · rw [if_pos hc] at hp
    have hcl := copy_from_slice_length (grow_for_write b value.length).buffer value b.write_pos hc
    have hg := grow_for_write_length b value.length
    cases hp
    constructor
    · show b.read_pos ≤
        (copy_from_slice (grow_for_write b value.length).buffer b.write_pos value).length
      rw [hcl]
      exact le_trans hb.1 hg
    · show b.write_pos + min value.length
        ((copy_from_slice (grow_for_write b value.length).buffer b.write_pos value).length - b.write_pos) ≤
        (copy_from_slice (grow_for_write b value.length).buffer b.write_pos value).length
      rw [hcl]
      have h2 := hb.2
      omega
  · rw [if_neg hc] at hp
    exact Option.noConfusion hp

theorem cipher_loop_isSome (key : XteaKey) (rounds : Nat) (decrypt : Bool)
    (n : Nat) :
    ∀ ib ob : Bytes,
      ib.read_pos + 8 * n ≤ ib.buffer.length →
      ob.write_pos + 8 * n ≤ ob.buffer.length →
      (cipher_loop key rounds decrypt n ib ob).isSome = true := by
  induction n with
  | zero => intro ib ob _ _; rfl
  | succ m IH =>
    intro ib ob hi ho
    rw [cipher_loop, get_u32_some ib (by omega)]
    dsimp only
    rw [get_u32_some { ib with read_pos := ib.read_pos + 4 }
      (by show ib.read_pos + 4 + 4 ≤ ib.buffer.length; omega)]
    dsimp only
    obtain ⟨ob1, h1, hr1, hw1, hl1⟩ := put_u32_some ob _ (by omega)
    rw [h1]
    dsimp only
    obtain ⟨ob2, h2, hr2, hw2, hl2⟩ := put_u32_some ob1 _ (by omega)
    rw [h2]
    dsimp only
    apply IH
    · show ib.read_pos + 4 + 4 + 8 * m ≤ ib.buffer.length
      omega
    · omega

/-- C6.  A typed get accessor of width `size >= 1` returns the underrun
condition with the cursor untouched when fewer than `size` bytes remain
between `read_pos` and the buffer length; otherwise it returns the `size`
bytes at `read_pos` and advances `read_pos` by exactly `size`.  The typed
variants are the generic accessor followed by the big-endian
interpretation `fromBeBytes`. -/
theorem get_accessor_spec (b : Bytes) (size : Nat) (h : 1 ≤ size) :
    (b.buffer.length - b.read_pos < size → impl_get_bytes b size = (none, b)) ∧
      (size ≤ b.buffer.length - b.read_pos →
        impl_get_bytes b size =
          (some ((b.buffer.drop b.read_pos).take size),
            { b with read_pos := b.read_pos + size })) ∧
      b.get_u32 = ((impl_get_bytes b 4).1.map fromBeBytes, (impl_get_bytes b 4).2) ∧
      b.get_u64 = ((impl_get_bytes b 8).1.map fromBeBytes, (impl_get_bytes b 8).2) := by
  refine ⟨fun hlt => ?_, fun hle => ?_, ?_, ?_⟩
  · exact impl_get_bytes_none b size (by omega)
  · exact impl_get_bytes_some b size (by omega)
  · unfold Bytes.get_u32
    rcases impl_get_bytes b 4 with ⟨o, b1⟩
    rfl
  · unfold Bytes.get_u64
    rcases impl_get_bytes b 8 with ⟨o, b1⟩
    rfl

/-- Witness for C6: the accessor behaviour at the concrete cursor
`Bytes.new [7, 11, 13]` with width 2. -/
theorem get_accessor_spec_witness :
    1 ≤ 2 ∧
      (((Bytes.new [7, 11, 13]).buffer.length - (Bytes.new [7, 11, 13]).read_pos < 2 →
          impl_get_bytes (Bytes.new [7, 11, 13]) 2 = (none, Bytes.new [7, 11, 13])) ∧
        (2 ≤ (Bytes.new [7, 11, 13]).buffer.length - (Bytes.new [7, 11, 13]).read_pos →
          impl_get_bytes (Bytes.new [7, 11, 13]) 2 =
            (some (((Bytes.new [7, 11, 13]).buffer.drop (Bytes.new [7, 11, 13]).read_pos).take 2),
              { Bytes.new [7, 11, 13] with read_pos := (Bytes.new [7, 11, 13]).read_pos + 2 })) ∧
        (Bytes.new [7, 11, 13]).get_u32 =
          ((impl_get_bytes (Bytes.new [7, 11, 13]) 4).1.map fromBeBytes,
            (impl_get_bytes (Bytes.new [7, 11, 13]) 4).2) ∧
        (Bytes.new [7, 11, 13]).get_u64 =
          ((impl_get_bytes (Bytes.new [7, 11, 13]) 8).1.map fromBeBytes,
            (impl_get_bytes (Bytes.new [7, 11, 13]) 8).2)) :=
  ⟨by decide, get_accessor_spec (Bytes.new [7, 11, 13]) 2 (by decide)⟩

/-- C8.  The top-level block cipher never fails: with `iterations =
readable / 8` every cursor read in the loop succeeds and every write fits,
so `do_block_cipher` returns `some` on every input, and the empty input
yields the empty output with zero iterations. -/
theorem do_block_cipher_never_underruns (key : XteaKey) (rounds : Nat)
    (input : List Nat) (decrypt : Bool) :
    (do_block_cipher key rounds input decrypt).isSome = true ∧
      do_block_cipher key rounds [] decrypt = some [] := by
  constructor
  · show (cipher_loop key rounds decrypt ((Bytes.new input).readable / 8)
      (Bytes.new input) (Bytes.new (List.replicate input.length 0))).isSome = true
    apply cipher_loop_isSome
    · show 0 + 8 * ((Bytes.new input).readable / 8) ≤ input.length
      have hr : (Bytes.new input).readable = input.length := by
        show input.length - 0 = input.length
        omega
      rw [hr]
      omega
    · show 0 + 8 * ((Bytes.new input).readable / 8) ≤ (List.replicate input.length 0).length
      have hr : (Bytes.new input).readable = input.length := by
        show input.length - 0 = input.length
        omega
      rw [hr, List.length_replicate]
      omega
  · rfl

/-- C9.  The cursor-bounds invariant `read_pos <= len` and
`write_pos <= len` holds for every constructor and is preserved by the
get, put and advance operations; the advances move the cursor by exactly
`min n (readable)` / `min n (writable)`. -/
theorem cursor_bounds_invariant (b : Bytes) (contents value : List Nat)
    (capacity size n amount : Nat) (h : b.inv) :
    (Bytes.new contents).inv ∧ (Bytes.with_capacity capacity).inv ∧
      (Bytes.sized size).inv ∧
      (b.advance_read_pos amount).inv ∧
      (b.advance_read_pos amount).read_pos = b.read_pos + min amount b.readable ∧
      (b.advance_write_pos amount).inv ∧
      (b.advance_write_pos amount).write_pos = b.write_pos + min amount b.writable ∧
      (impl_get_bytes b n).2.inv ∧
      ∀ b2, impl_put_bytes b value = some b2 → b2.inv := by
  obtain ⟨h1, h2⟩ := h
  refine ⟨⟨Nat.zero_le _, Nat.zero_le _⟩, ⟨Nat.zero_le _, Nat.zero_le _⟩,
    ⟨Nat.zero_le _, Nat.zero_le _⟩, ⟨?_, ?_⟩, rfl, ⟨?_, ?_⟩, rfl, ?_, ?_⟩
  · show b.read_pos + min amount (b.buffer.length - b.read_pos) ≤ b.buffer.length
    omega
  · show b.write_pos ≤ b.buffer.length
    exact h2
  · show b.read_pos ≤ b.buffer.length
    exact h1
  · show b.write_pos + min amount (b.buffer.length - b.write_pos) ≤ b.buffer.length
    omega
  · by_cases hc : b.read_pos + n ≤ b.buffer.length
    · rw [impl_get_bytes_some b n hc]
      exact ⟨hc, h2⟩
    · rw [impl_get_bytes_none b n (by omega)]
      exact ⟨h1, h2⟩
  · intro b2 hp
    exact impl_put_bytes_inv b value b2 ⟨h1, h2⟩ hp

/-- Witness for C9: the invariant statement at the concrete cursor
`Bytes.mk [1, 2, 3] 1 2` (which satisfies the invariant) and concrete
arguments for every operation. -/
theorem cursor_bounds_invariant_witness :
    (Bytes.mk [1, 2, 3] 1 2).inv ∧
      ((Bytes.new [4, 5]).inv ∧ (Bytes.with_capacity 3).inv ∧
        (Bytes.sized 2).inv ∧
        ((Bytes.mk [1, 2, 3] 1 2).advance_read_pos 2).inv ∧
        ((Bytes.mk [1, 2, 3] 1 2).advance_read_pos 2).read_pos =
          (Bytes.mk [1, 2, 3] 1 2).read_pos +
            min 2 (Bytes.mk [1, 2, 3] 1 2).readable ∧
        ((Bytes.mk [1, 2, 3] 1 2).advance_write_pos 2).inv ∧
        ((Bytes.mk [1, 2, 3] 1 2).advance_write_pos 2).write_pos =
          (Bytes.mk [1, 2, 3] 1 2).write_pos +
            min 2 (Bytes.mk [1, 2, 3] 1 2).writable ∧
        (impl_get_bytes (Bytes.mk [1, 2, 3] 1 2) 1).2.inv ∧
        ∀ b2, impl_put_bytes (Bytes.mk [1, 2, 3] 1 2) [6] = some b2 → b2.inv) :=
  ⟨⟨by decide, by decide⟩,
    cursor_bounds_invariant (Bytes.mk [1, 2, 3] 1 2) [4, 5] [6] 3 2 1 2
      ⟨by decide, by decide⟩⟩

/-- C10.  A successful generic get leaves the buffer contents, the buffer
length and the write position unchanged. -/
theorem get_success_frame (b b2 : Bytes) (size : Nat) (o : List Nat)
    (h : impl_get_bytes b size = (some o, b2)) :
    b2.buffer = b.buffer ∧ b2.buffer.length = b.buffer.length ∧
      b2.write_pos = b.write_pos := by
  unfold impl_get_bytes at h
  by_cases hc : b.read_pos + size > b.buffer.length
  · rw [if_pos hc] at h
    simp at h
  · rw [if_neg hc] at h
    cases h
    exact ⟨rfl, rfl, rfl⟩

/-- Witness for C10: the frame condition at the concrete successful read
of one byte from `Bytes.new [5, 6]`. -/
theorem get_success_frame_witness :
    impl_get_bytes (Bytes.new [5, 6]) 1 = (some [5], Bytes.mk [5, 6] 1 0) ∧
      ((Bytes.mk [5, 6] 1 0).buffer = (Bytes.new [5, 6]).buffer ∧
        (Bytes.mk [5, 6] 1 0).buffer.length = (Bytes.new [5, 6]).buffer.length ∧
        (Bytes.mk [5, 6] 1 0).write_pos = (Bytes.new [5, 6]).write_pos) :=
  ⟨by decide, get_success_frame (Bytes.new [5, 6]) (Bytes.mk [5, 6] 1 0) 1 [5] (by decide)⟩

end XteaSpec
